import Mathlib

/-!
Verification of the ZText template-evaluation engine (single-header C++
library `ZText.h`, compiled with `ZTEXT_ERROR_CHECKS_ENABLED = 1`, as every
compilation unit in the repository does).

The development is a shallow embedding: strings are `List Char` with the
C++ `std::string::operator[]` convention that reading at `size()` yields the
NUL character; `size_t` index arithmetic that can only be reached with
in-range values is modelled with `Nat`.  All loops of the source are
translated to structurally recursive functions on an explicit fuel argument;
each wrapper supplies enough fuel for the loop bound visible in the source,
so every definition reduces in the kernel.  Evaluation and parsing receive a
global fuel argument modelling the C call stack: `fuelOut` corresponds to
non-termination / stack exhaustion, `abort` to `std::terminate` (an
exception escaping a `noexcept` function).
-/

namespace ZTextV

abbrev Chars := List Char

/-- C++ `std::string::operator[]`: reading one past the end of a
`std::string` yields NUL; the model also returns NUL for any other
out-of-range index. -/
def charAt (s : Chars) (i : Nat) : Char := s.getD i (Char.ofNat 0)

/-- C `isspace` on the ASCII range, as used via
`std::isspace(static_cast<unsigned char>(c))` in the source. -/
def is_space_ (c : Char) : Bool :=
  c = ' ' || c = '\t' || c = '\n' || c = '\x0d' || c = '\x0b' || c = '\x0c'

/-- `is_valid_token_name_character_`: `std::isalnum(c) != 0 || c == '_'`. -/
def is_valid_token_name_character_ (c : Char) : Bool :=
  c.isAlpha || c.isDigit || c = '_'

-- Constants from the source (`Token_Begin = '{'`, `Token_End = '}'`,
-- `Token_Escape = '\\'`, identifiers `'$' '@' '(' '#'`, dataset markers).
def Token_Begin : Char := '{'
def Token_End : Char := '}'
def Token_Escape : Char := '\\'
def Identifier_Command : Char := '('
def Identifier_Variable : Char := '$'
def Identifier_Array : Char := '@'
def Identifier_Map : Char := '#'
def Dataset_Array_Begin : Char := '['
def Dataset_Array_End : Char := ']'
def Dataset_Array_Separator : Char := ','
def Dataset_Map_Begin : Char := '('
def Dataset_Map_End : Char := ')'
def Dataset_Map_Assignment : Char := '='

/-- `substr_(string, begin, end)` = `string.substr(begin, end - begin + 1)`,
where `end - begin + 1` is computed in `size_t`: if `end + 1 < begin` the
count wraps around and `substr` clamps it to the rest of the string. -/
def substr_ (s : Chars) (b e : Nat) : Chars :=
  if b ≤ e + 1 then (s.drop b).take (e + 1 - b) else s.drop b

/-- Loop of `whitespace_skip_leading_`:
`while(index < string.size() && isspace(string[index])) index++`. -/
def wsl_go (s : Chars) : Nat → Nat → Nat
  | 0, i => i
  | f+1, i =>
    if i < s.length && is_space_ (charAt s i) then wsl_go s f (i+1) else i

def whitespace_skip_leading_ (s : Chars) (i : Nat) : Nat :=
  wsl_go s (s.length + 1 - i) i

/-- `whitespace_skip_trailing_`:
`while(index > 0 && isspace(string[index])) index--`. -/
def whitespace_skip_trailing_ (s : Chars) : Nat → Nat
  | 0 => 0
  | i+1 => if is_space_ (charAt s (i+1)) then whitespace_skip_trailing_ s i else i+1

/-- Loop of `find_char_`: scan forward for `ch` not preceded by the escape
character; returns the index where it stopped (`end + 1` when not found). -/
def fc_go (s : Chars) (ch : Char) (e : Nat) : Nat → Nat → Nat
  | 0, i => i
  | f+1, i =>
    if i ≤ e then
      if charAt s i = ch && charAt s (i-1) ≠ Token_Escape then i
      else fc_go s ch e f (i+1)
    else i

def find_char_ (s : Chars) (ch : Char) (b e : Nat) : Nat :=
  fc_go s ch e (e + 2 - b) b

/-- Loop of `find_char_end_`: balanced search for `char_end` matching the
`char_begin` at `index_begin`, honouring escapes and nesting depth. -/
def fce_go (s : Chars) (cb ce : Char) (e : Nat) : Nat → Nat → Nat → Nat
  | 0, i, _ => i
  | f+1, i, depth =>
    if i ≤ e then
      let depth1 := if charAt s i = cb && charAt s (i-1) ≠ Token_Escape
        then depth + 1 else depth
      if charAt s i = ce && charAt s (i-1) ≠ Token_Escape then
        if depth1 = 0 then i
        else fce_go s cb ce e f (i+1) (depth1 - 1)
      else fce_go s cb ce e f (i+1) depth1
    else i

def find_char_end_ (s : Chars) (cb ce : Char) (ib ie : Nat) : Nat :=
  fce_go s cb ce ie (ie + 2) (ib + 1) 0

/-- Inner loop of `whitespace_clean_`:
`while(isspace(string[index_2])) index_2++` (stops at the NUL read at
`size()`). -/
def wr_go (s : Chars) : Nat → Nat → Nat
  | 0, j => j
  | f+1, j => if is_space_ (charAt s j) then wr_go s f (j+1) else j

def ws_run_end (s : Chars) (j : Nat) : Nat :=
  wr_go s (s.length + 1 - j) j

/-- Outer loop of `whitespace_clean_`: at each whitespace position replace
the maximal run starting there by a single space
(`string.replace(index_1, index_2 - index_1, " ")`), then advance. -/
def wc_go : Nat → Chars → Nat → Chars
  | 0, s, _ => s
  | f+1, s, i =>
    if i < s.length then
      if is_space_ (charAt s i) = false then wc_go f s (i+1)
      else
        let j := ws_run_end s (i+1)
        wc_go f (s.take i ++ ' ' :: s.drop j) (i+1)
    else s

def whitespace_clean_chars (s : Chars) : Chars :=
  wc_go (s.length + 1) s 0

/-- `whitespace_clean_(std::string) -> std::string`: every maximal run of
whitespace in the string is replaced by a single space. -/
def whitespace_clean_ (s : String) : String :=
  ⟨whitespace_clean_chars s.data⟩

/-- `string.erase(index, 1)`. -/
def eraseAt (s : Chars) (i : Nat) : Chars := s.take i ++ s.drop (i+1)

/-- Loop of `escape_sequence_remove_`: delete the backslash of every
`\{{` / `\}}` pair (guarded by `index + 2 < string.size()`); after an
erase the cursor advances past the first marker character, and the loop
footer advances it once more. -/
def esr_go : Nat → Chars → Nat → Chars
  | 0, s, _ => s
  | f+1, s, i =>
    if i < s.length then
      if charAt s i ≠ Token_Escape then esr_go f s (i+1)
      else
        if i + 2 < s.length then
          if charAt s (i+1) = Token_Begin && charAt s (i+2) = Token_Begin then
            esr_go f (eraseAt s i) (i+2)
          else if charAt s (i+1) = Token_End && charAt s (i+2) = Token_End then
            esr_go f (eraseAt s i) (i+2)
          else esr_go f s (i+1)
        else esr_go f s (i+1)
    else s

def escape_sequence_remove_chars (s : Chars) : Chars :=
  esr_go (s.length + 1) s 0

def escape_sequence_remove_ (s : String) : String :=
  ⟨escape_sequence_remove_chars s.data⟩

end ZTextV

namespace ZTextV

/-- `ztext::Element` (struct with a `Type` tag at `ZText.h:284`), rendered
as one variant per `ztext::Type`.  `text` holds the node's text or token
name; `child` models the owned `child` chain (`[]` = `nullptr`); `sel`
models `property[""]` for Array/Map (the selector; `""` = absent, matching
the `std::map` default value); `property` models the Command property map;
`lit` models the `array` / `map` literal storage. -/
inductive Element where
  | text (s : String)
  | var (name : String) (child : List Element)
  | cmd (name : String) (property : List (String × String)) (child : List Element)
  | arr (name : String) (sel : String) (lit : List (List Element))
  | mapE (name : String) (sel : String) (lit : List (String × List Element))

/- Number of heap `Element` nodes making up an element (the node itself,
its `child` subtree and its Array/Map literal contents) — the unit of the
allocation accounting used to check the parser's cleanup-on-error. -/
mutual
def elemSize : Element → Nat
  | .text _ => 1
  | .var _ ch => 1 + chainSize ch
  | .cmd _ _ ch => 1 + chainSize ch
  | .arr _ _ lit => 1 + litSize lit
  | .mapE _ _ lit => 1 + mlitSize lit
def chainSize : List Element → Nat
  | [] => 0
  | e :: r => elemSize e + chainSize r
def litSize : List (List Element) → Nat
  | [] => 0
  | c :: r => chainSize c + litSize r
def mlitSize : List (String × List Element) → Nat
  | [] => 0
  | p :: r => chainSize p.2 + mlitSize r
end

/- `element_copy_` (`ZText.h:501`): copies `property`, `text`, `type` and
recursively the `child` chain — but NOT the `map` and `array` literal
fields, which are left default-initialised in the copy. -/
mutual
def element_copy_ : Element → Element
  | .text s => .text s
  | .var n ch => .var n (element_copy_all_ ch)
  | .cmd n p ch => .cmd n p (element_copy_all_ ch)
  | .arr n sel _ => .arr n sel []
  | .mapE n sel _ => .mapE n sel []
def element_copy_all_ : List Element → List Element
  | [] => []
  | e :: r => element_copy_ e :: element_copy_all_ r
end

/-- `array_copy_`: deep copy of each chain of a registry array. -/
def array_copy_ (a : List (List Element)) : List (List Element) :=
  a.map element_copy_all_

/-- `map_copy_`: deep copy of each chain of a registry map. -/
def map_copy_ (m : List (String × List Element)) : List (String × List Element) :=
  m.map (fun p => (p.1, element_copy_all_ p.2))

/-- Lookup in an `unordered_map` modelled as an association list. -/
def mget {α : Type} (m : List (String × α)) (k : String) : Option α :=
  match m.find? (fun p => p.1 = k) with
  | some p => some p.2
  | none => none

/-- `unordered_map` assignment `m[k] = v` (insert or overwrite). -/
def mset {α : Type} (m : List (String × α)) (k : String) (v : α) :
    List (String × α) :=
  (k, v) :: m.filter (fun p => p.1 ≠ k)

/-- `ztext::ZText` (`ZText.h:302`): the engine context with its registries.
Host command callbacks are kept outside the context (see `Host` below), so
`cmds` records only the registered command names. -/
structure Ctx where
  vars : List (String × List Element)
  varRO : List (String × Bool)
  arrs : List (String × List (List Element))
  arrRO : List (String × Bool)
  maps : List (String × List (String × List Element))
  mapRO : List (String × Bool)
  cmds : List String

def emptyCtx : Ctx := ⟨[], [], [], [], [], [], []⟩

/-- `ztext::variable_set` (`ZText.h:2789`): destroy any previous chain for
`name`, store `element`, and set the read-only flag to `read_only` —
unconditionally, with no check of any previous read-only flag. -/
def variable_set (c : Ctx) (name : String) (element : List Element)
    (read_only : Bool) : Ctx :=
  { c with vars := mset c.vars name element,
           varRO := mset c.varRO name read_only }

/-- `ztext::array_set` (`ZText.h:2191`): destroy previous contents, store
the array, set the read-only flag unconditionally. -/
def array_set (c : Ctx) (name : String) (a : List (List Element))
    (read_only : Bool) : Ctx :=
  { c with arrs := mset c.arrs name a,
           arrRO := mset c.arrRO name read_only }

/-- `ztext::map_set` (`ZText.h:2570`). -/
def map_set (c : Ctx) (name : String) (m : List (String × List Element))
    (read_only : Bool) : Ctx :=
  { c with maps := mset c.maps name m,
           mapRO := mset c.mapRO name read_only }

/-- `ztext::variable` (`ZText.h:2622`): registry lookup, `nullptr`
(`none`) when the name is absent. -/
def variable_get (c : Ctx) (name : String) : Option (List Element) :=
  mget c.vars name

/-- `ztext::array` (`ZText.h:2033`): `nullptr` when the name is absent or
the index is out of range. -/
def array_get (c : Ctx) (name : String) (index : Nat) :
    Option (List Element) :=
  match mget c.arrs name with
  | none => none
  | some a => a.get? index

/-- `ztext::map` (`ZText.h:2369`): `nullptr` when name or key is absent. -/
def map_get (c : Ctx) (name : String) (key : String) :
    Option (List Element) :=
  match mget c.maps name with
  | none => none
  | some m => mget m key

/-- `std::stoul` on the selector strings the token parser can produce
(runs of alphanumeric/underscore characters, hence no leading whitespace
or sign): `none` models the `std::invalid_argument` /
`std::out_of_range` exception, which escapes the `noexcept` evaluation
functions and calls `std::terminate`. -/
def stoul (s : String) : Option Nat :=
  let digits := s.data.takeWhile Char.isDigit
  if digits.isEmpty then none
  else
    let v := digits.foldl (fun a c => a * 10 + (c.toNat - 48)) 0
    if v < 2 ^ 64 then some v else none

/-- Result of evaluation: `ok` is a normal return, `abort` models
`std::terminate` (exception in a `noexcept` function), `fuelOut` models
exhaustion of the call stack (the evaluator has no cycle detection). -/
inductive EvalRes where
  | ok (c : Ctx) (s : String)
  | abort
  | fuelOut

def resStr : EvalRes → Option String
  | .ok _ s => some s
  | _ => none

def resCtx : EvalRes → Option Ctx
  | .ok c _ => some c
  | _ => none

/-- Host command callbacks are out of scope (spec sections 1 and 6); they
are modelled at their boundary as pure functions of the command name, the
property map, and the evaluated content — exactly the shape of every
callback in the repository's own tests and examples. -/
abbrev Host := String → List (String × String) → String → String

def host0 : Host := fun _ _ _ => ""

/- `ztext::eval` with `to_end = true` together with the per-type
dispatch functions `element_eval_variable_` / `element_eval_command_` /
`element_eval_array_` / `element_eval_map_` (`ZText.h:638-800, 2831`).
Every recursive evaluation step consumes one unit of fuel.

`evalChain fuel c es` walks the chain `es` concatenating results (an
empty chain is the `element == nullptr` case and yields `""`);
`evalElement fuel c e` evaluates a single element:
 - Text: `escape_sequence_remove_` of the stored text;
 - Variable with no child ("get"): evaluate the registry chain, `""`
   when absent;
 - Variable with child ("set"): if `variable_readonly[name]` is `true`,
   ignore the child and evaluate the registry chain; otherwise evaluate
   the child, then `variable_set` a deep copy of it with `read_only =
   false`, and return the child's value;
 - Command: `""` when the name is not registered; otherwise the host
   callback applied to the evaluated content;
 - Array: resolve the index first (`std::stoul`, which may terminate
   the program); pure get / read-only get read the registry; otherwise
   evaluate `lit[index]` (or `""` when out of range) and then
   `array_set` a deep copy of the literal with `read_only = false`;
 - Map: as Array with string keys and no `stoul`. -/
mutual
def evalChain (host : Host) : Nat → Ctx → List Element → EvalRes
  | _, c, [] => .ok c ""
  | 0, _, _ :: _ => .fuelOut
  | f+1, c, e :: rest =>
    match evalElement host f c e with
    | .ok c2 s =>
      match evalChain host f c2 rest with
      | .ok c3 s2 => .ok c3 (s ++ s2)
      | r => r
    | r => r
def evalElement (host : Host) : Nat → Ctx → Element → EvalRes
  | 0, _, _ => .fuelOut
  | f+1, c, el =>
    match el with
    | .text s => .ok c (escape_sequence_remove_ s)
    | .var name child =>
      match child with
      | [] => evalChain host f c ((variable_get c name).getD [])
      | _ :: _ =>
        if mget c.varRO name = some true then
          evalChain host f c ((variable_get c name).getD [])
        else
          match evalChain host f c child with
          | .ok c2 s =>
            .ok (variable_set c2 name (element_copy_all_ child) false) s
          | r => r
    | .cmd name property child =>
      if c.cmds.contains name = false then .ok c ""
      else
        match evalChain host f c child with
        | .ok c2 s => .ok c2 (host name property s)
        | r => r
    | .arr name sel lit =>
      match (if sel = "" then some lit.length else stoul sel) with
      | none => .abort
      | some index =>
        match lit with
        | [] => evalChain host f c ((array_get c name index).getD [])
        | _ :: _ =>
          if mget c.arrRO name = some true then
            evalChain host f c ((array_get c name index).getD [])
          else
            match lit.get? index with
            | none => .ok (array_set c name (array_copy_ lit) false) ""
            | some ch =>
              match evalChain host f c ch with
              | .ok c2 s => .ok (array_set c2 name (array_copy_ lit) false) s
              | r => r
    | .mapE name sel lit =>
      match lit with
      | [] => evalChain host f c ((map_get c name sel).getD [])
      | _ :: _ =>
        if mget c.mapRO name = some true then
          evalChain host f c ((map_get c name sel).getD [])
        else
          match mget lit sel with
          | none => .ok (map_set c name (map_copy_ lit) false) ""
          | some ch =>
            match evalChain host f c ch with
            | .ok c2 s => .ok (map_set c2 name (map_copy_ lit) false) s
            | r => r
end

end ZTextV

namespace ZTextV

/-- The parse error codes of `ZTEXT__ERROR_DATA` reachable from the
parser, plus `Fuel_Exhausted`, the artefact of the fuel discipline. -/
inductive Err where
  | Error_Parser_Token_Name_Invalid
  | Error_Parser_No_Text_Found
  | Error_Parser_Token_End_Marker_Missing
  | Error_Parser_Token_Name_Missing
  | Error_Parser_Token_Begin_Marker_Missing
  | Error_Parser_Command_Property_End_Marker_Missing
  | Error_Parser_Map_Begin_Marker_Missing
  | Error_Parser_Map_End_Marker_Missing
  | Error_Parser_Map_Key_Value_Pair_Missing
  | Error_Parser_Map_Key_Missing
  | Error_Parser_Map_Value_Missing
  | Error_Parser_Map_Index_Invalid
  | Error_Parser_Map_Contains_Invalid_Data
  | Error_Parser_Array_Begin_Marker_Missing
  | Error_Parser_Array_End_Marker_Missing
  | Error_Parser_Array_Contains_Invalid_Data
  | Error_Parser_Array_Value_Missing
  | Fuel_Exhausted

/-- The `Token` work structure of the parser (`ZText.h:345`), all index
fields zero-initialised (`0` doubles as the "not present" sentinel, as in
the source, where no real sub-range can start at index 0 of the string).
`tbegin`/`tend` are the C++ `begin`/`end` fields. -/
structure Token where
  tbegin : Nat := 0
  tend : Nat := 0
  name_begin : Nat := 0
  name_end : Nat := 0
  property_begin : Nat := 0
  property_end : Nat := 0
  content_begin : Nat := 0
  content_end : Nat := 0
  type_index : Nat := 0
  type : Char := Char.ofNat 0

/-- Name-run loop of `parse_token_name_`:
`while(is_valid_token_name_character_(string[index])) index++`
(bounded in effect by the NUL read at the end of the string). -/
def nm_go (s : Chars) : Nat → Nat → Nat
  | 0, i => i
  | f+1, i =>
    if is_valid_token_name_character_ (charAt s i) then nm_go s f (i+1) else i

def name_run (s : Chars) (i : Nat) : Nat :=
  nm_go s (s.length + 1 - i) i

/-- `parse_token_name_` (`ZText.h:1616`). -/
def parse_token_name_ (tok : Token) (s : Chars) : Except Err Token :=
  let index := whitespace_skip_leading_ s (tok.tbegin + 2)
  if charAt s index = Identifier_Variable
      || charAt s index = Identifier_Array
      || charAt s index = Identifier_Command
      || charAt s index = Identifier_Map
      || charAt s index = Token_End then
    .error .Error_Parser_Token_Name_Missing
  else
    let j := name_run s index
    if index = j then .error .Error_Parser_Token_Name_Invalid
    else .ok { tok with name_begin := index, name_end := j - 1 }

/-- `parse_token_identifier_` (`ZText.h:1651`); it always succeeds, the
default variant being Command. -/
def parse_token_identifier_ (tok : Token) (s : Chars) : Token :=
  let index := whitespace_skip_leading_ s (tok.name_end + 1)
  let t :=
    if charAt s index = Identifier_Array then Identifier_Array
    else if charAt s index = Identifier_Map then Identifier_Map
    else if charAt s index = Identifier_Variable then Identifier_Variable
    else Identifier_Command
  { tok with type_index := index, type := t }

/-- Bare selector run in `parse_token_array_` / `parse_token_map_`:
`while(index < token.end) { if(!valid) break; index++ }`. -/
def bnr_go (s : Chars) (e : Nat) : Nat → Nat → Nat
  | 0, i => i
  | f+1, i =>
    if i < e then
      if is_valid_token_name_character_ (charAt s i) = false then i
      else bnr_go s e f (i+1)
    else i

def bounded_name_run (s : Chars) (e i : Nat) : Nat :=
  bnr_go s e (e + 1 - i) i

/-- `parse_token_array_` (`ZText.h:1683`): optional bare index, optional
`[...]` literal, then the token must close.  Mutates the token fields as
the source does before any error return; the caller ignores the error. -/
def parse_token_array_ (tok : Token) (s : Chars) : Token × Option Err :=
  let i0 := whitespace_skip_leading_ s (tok.type_index + 1)
  if charAt s i0 = Token_End then (tok, none)
  else
    let step1 : (Token × Nat) × Option Err :=
      if charAt s i0 ≠ Dataset_Array_Begin then
        if is_valid_token_name_character_ (charAt s i0) = false then
          ((tok, i0), some .Error_Parser_Map_Index_Invalid)
        else
          let i1 := bounded_name_run s tok.tend (i0 + 1)
          (({ tok with content_begin := i0, content_end := i1 - 1 },
            whitespace_skip_leading_ s i1), none)
      else ((tok, i0), none)
    match step1 with
    | (_, some err) => (step1.1.1, some err)
    | ((tok1, i), none) =>
      let step2 : (Token × Nat) × Option Err :=
        if charAt s i = Dataset_Array_Begin then
          let tok2 := { tok1 with property_begin := i }
          let i3 := find_char_end_ s Dataset_Array_Begin Dataset_Array_End i tok1.tend
          if i3 > tok1.tend then
            ((tok2, i), some .Error_Parser_Array_End_Marker_Missing)
          else (({ tok2 with property_end := i3 }, i3 + 1), none)
        else ((tok1, i), none)
      match step2 with
      | (_, some err) => (step2.1.1, some err)
      | ((tok2, i'), none) =>
        let i4 := whitespace_skip_leading_ s i'
        if charAt s i4 ≠ Token_End then
          (tok2, some .Error_Parser_Array_Contains_Invalid_Data)
        else (tok2, none)

/-- `parse_token_map_` (`ZText.h:1752`): same shape as the Array tail with
`(`/`)` (including the reuse of `Error_Parser_Map_Index_Invalid`). -/
def parse_token_map_ (tok : Token) (s : Chars) : Token × Option Err :=
  let i0 := whitespace_skip_leading_ s (tok.type_index + 1)
  if charAt s i0 = Token_End then (tok, none)
  else
    let step1 : (Token × Nat) × Option Err :=
      if charAt s i0 ≠ Dataset_Map_Begin then
        if is_valid_token_name_character_ (charAt s i0) = false then
          ((tok, i0), some .Error_Parser_Map_Index_Invalid)
        else
          let i1 := bounded_name_run s tok.tend (i0 + 1)
          (({ tok with content_begin := i0, content_end := i1 - 1 },
            whitespace_skip_leading_ s i1), none)
      else ((tok, i0), none)
    match step1 with
    | (_, some err) => (step1.1.1, some err)
    | ((tok1, i), none) =>
      let step2 : (Token × Nat) × Option Err :=
        if charAt s i = Dataset_Map_Begin then
          let tok2 := { tok1 with property_begin := i }
          let i3 := find_char_end_ s Dataset_Map_Begin Dataset_Map_End i tok1.tend
          if i3 > tok1.tend then
            ((tok2, i), some .Error_Parser_Map_End_Marker_Missing)
          else (({ tok2 with property_end := i3 }, i3 + 1), none)
        else ((tok1, i), none)
      match step2 with
      | (_, some err) => (step2.1.1, some err)
      | ((tok2, i'), none) =>
        let i4 := whitespace_skip_leading_ s i'
        if charAt s i4 ≠ Token_End then
          (tok2, some .Error_Parser_Map_Contains_Invalid_Data)
        else (tok2, none)

/-- `parse_token_command_` (`ZText.h:1821`): optional `(...)` property
dataset directly at the identifier position, the rest (trimmed) is
content. -/
def parse_token_command_ (tok : Token) (s : Chars) : Token × Option Err :=
  if charAt s tok.type_index = Token_End then (tok, none)
  else
    let step1 : (Token × Nat) × Option Err :=
      if charAt s tok.type_index = Dataset_Map_Begin then
        let tok1 := { tok with property_begin := tok.type_index }
        let i3 := find_char_end_ s Dataset_Map_Begin Dataset_Map_End
          tok.type_index tok.tend
        if i3 > tok.tend then
          ((tok1, tok.type_index),
            some .Error_Parser_Command_Property_End_Marker_Missing)
        else (({ tok1 with property_end := i3 }, i3 + 1), none)
      else ((tok, tok.type_index), none)
    match step1 with
    | (_, some err) => (step1.1.1, some err)
    | ((tok1, i), none) =>
      let i4 := whitespace_skip_leading_ s i
      if charAt s i4 ≠ Token_End then
        ({ tok1 with content_begin := i4,
                     content_end := whitespace_skip_trailing_ s (tok.tend - 2) },
          none)
      else (tok1, none)

/-- `parse_token_variable_` (`ZText.h:1867`): everything after `$`
(trimmed) is content. -/
def parse_token_variable_ (tok : Token) (s : Chars) : Token × Option Err :=
  let i := whitespace_skip_leading_ s (tok.type_index + 1)
  if charAt s i = Token_End then (tok, none)
  else
    ({ tok with content_begin := i,
                content_end := whitespace_skip_trailing_ s (tok.tend - 2) },
      none)

/-- `parse_key_value_` (`ZText.h:1234`), with the
`ZTEXT_ERROR_CHECKS_ENABLED` validations active. -/
def parse_key_value_ (s : Chars) (b e : Nat) : Except Err (String × String) :=
  let index := find_char_ s Dataset_Map_Assignment b e
  if index = b then .error .Error_Parser_Map_Key_Missing
  else if index > e then .error .Error_Parser_Map_Key_Value_Pair_Missing
  else
    let key_begin := whitespace_skip_leading_ s (b + 1)
    let key_end := whitespace_skip_trailing_ s (index - 1)
    let value_begin := whitespace_skip_leading_ s (index + 1)
    let value_end := whitespace_skip_trailing_ s (e - 1)
    if key_begin > key_end then .error .Error_Parser_Map_Key_Missing
    else if value_begin > value_end then .error .Error_Parser_Map_Value_Missing
    else
      let key := whitespace_clean_chars (substr_ s key_begin key_end)
      let value := whitespace_clean_chars (substr_ s value_begin value_end)
      if key.isEmpty then .error .Error_Parser_Map_Key_Missing
      else if value.isEmpty then .error .Error_Parser_Map_Value_Missing
      else .ok (⟨key⟩, ⟨value⟩)

/-- Value loop of the array-literal parser `parse_(string, begin, end,
VectorString&)` (`ZText.h:1138`); on error the values accumulated so far
are kept (the caller ignores the error code). -/
def pvs_go (s : Chars) (e : Nat) : Nat → Nat → List Chars →
    List Chars × Option Err
  | 0, _, acc => (acc, some .Fuel_Exhausted)
  | f+1, kv_begin, acc =>
    if kv_begin < e then
      let kv_end0 := find_char_ s Dataset_Array_Separator (kv_begin + 1) e
      let kv_end := if kv_end0 > e then e else kv_end0
      if kv_begin + 1 ≥ kv_end then
        (acc, some .Error_Parser_Array_Value_Missing)
      else
        let value := whitespace_clean_chars (substr_ s
          (whitespace_skip_leading_ s (kv_begin + 1))
          (whitespace_skip_trailing_ s (kv_end - 1)))
        pvs_go s e f kv_end (acc ++ [value])
    else (acc, none)

/-- Range version of `parse_` into a `VectorString` (`ZText.h:1095`),
with the error-check validations active. -/
def parse_vs (s : Chars) (b e : Nat) : List Chars × Option Err :=
  if s.isEmpty then ([], some .Error_Parser_No_Text_Found)
  else
    let b' := whitespace_skip_leading_ s b
    let e' := whitespace_skip_trailing_ s e
    if b' + 1 = e' then ([], none)
    else if b' > e' then ([], some .Error_Parser_Array_Begin_Marker_Missing)
    else if charAt s b' ≠ Dataset_Array_Begin then
      ([], some .Error_Parser_Array_Begin_Marker_Missing)
    else if charAt s e' ≠ Dataset_Array_End then
      ([], some .Error_Parser_Array_End_Marker_Missing)
    else pvs_go s e' (e' + 2) b' []

/-- `unordered_map` assignment preserving first-insertion order, for the
key/value accumulation of the map parser. -/
def msetIns {α : Type} (m : List (String × α)) (k : String) (v : α) :
    List (String × α) :=
  if (m.find? (fun p => p.1 = k)).isSome then
    m.map (fun p => if p.1 = k then (k, v) else p)
  else m ++ [(k, v)]

/-- Pair loop of the map-literal parser `ztext::parse(string, begin, end,
MapStringString&)` (`ZText.h:3886`); on error the pairs accumulated so
far are kept. -/
def pms_go (s : Chars) (e : Nat) : Nat → Nat → List (String × String) →
    List (String × String) × Option Err
  | 0, _, acc => (acc, some .Fuel_Exhausted)
  | f+1, kv_begin, acc =>
    if kv_begin < e then
      let kv_end0 := find_char_ s Dataset_Array_Separator (kv_begin + 1) e
      let kv_end := if kv_end0 > e then e else kv_end0
      match parse_key_value_ s kv_begin kv_end with
      | .error err => (acc, some err)
      | .ok (k, v) => pms_go s e f kv_end (msetIns acc k v)
    else (acc, none)

/-- Range version of `ztext::parse` into a `MapStringString`
(`ZText.h:3843`), with the error-check validations active. -/
def parse_ms (s : Chars) (b e : Nat) : List (String × String) × Option Err :=
  if s.isEmpty then ([], some .Error_Parser_No_Text_Found)
  else
    let b' := whitespace_skip_leading_ s b
    let e' := whitespace_skip_trailing_ s e
    if whitespace_skip_leading_ s (b' + 1) = e' then ([], none)
    else if b' > e' then ([], some .Error_Parser_Map_Begin_Marker_Missing)
    else if charAt s b' ≠ Dataset_Map_Begin then
      ([], some .Error_Parser_Map_Begin_Marker_Missing)
    else if charAt s e' ≠ Dataset_Map_End then
      ([], some .Error_Parser_Map_End_Marker_Missing)
    else pms_go s e' (e' + 2) b' []

/-- Outcome of the text scan of `parse_text_`. -/
inductive PtStop where
  | tokenAt (i : Nat)
  | errAt (i : Nat)
  | endAt (i : Nat)

/-- Scan loop of `parse_text_` (`ZText.h:1310`): stop at an unescaped
`{{` (token follows), fail at an unescaped `}}`, else run to the end. -/
def pt_go (s : Chars) (e : Nat) : Nat → Nat → PtStop
  | 0, i => .endAt i
  | f+1, i =>
    if i > e then .endAt i
    else if charAt s i = Token_Begin && decide (i + 1 ≤ e)
        && charAt s (i-1) ≠ Token_Escape && charAt s (i+1) = Token_Begin then
      .tokenAt i
    else if charAt s i = Token_End && decide (i + 1 ≤ e)
        && charAt s (i-1) ≠ Token_Escape && charAt s (i+1) = Token_End then
      .errAt i
    else pt_go s e f (i+1)

/-- `parse_text_` (`ZText.h:1302`): consume a text run, collapse its
whitespace, and return the updated `begin`; an empty cleaned run is the
`Error_Parser_No_Text_Found` skip signal. -/
def parse_text_ (s : Chars) (b e : Nat) : Nat × Except Err Element :=
  match pt_go s e (e + 2 - b) b with
  | .errAt p => (p, .error .Error_Parser_Token_Begin_Marker_Missing)
  | .tokenAt p =>
    let idx := p - 1
    let text := whitespace_clean_chars (substr_ s b idx)
    if text.isEmpty then (idx + 1, .error .Error_Parser_No_Text_Found)
    else (idx + 1, .ok (.text ⟨text⟩))
  | .endAt p =>
    let idx := p - 1
    let text := whitespace_clean_chars (substr_ s b idx)
    if text.isEmpty then (idx + 1, .error .Error_Parser_No_Text_Found)
    else (idx + 1, .ok (.text ⟨text⟩))

/-- Token-end scan of `parse_token_` (`ZText.h:1370`): find the matching
`}}` at depth 0, honouring escapes; the returned index is that of the
second `}` when found, and exceeds `e` otherwise. -/
def tk_go (s : Chars) (e : Nat) : Nat → Nat → Nat → Nat
  | 0, i, _ => i
  | f+1, i, depth =>
    if i > e then i
    else
      let p := if charAt s i = Token_Begin && decide (i + 1 ≤ e)
          && charAt s (i+1) = Token_Begin && charAt s (i-1) ≠ Token_Escape
        then (i + 1, depth + 1) else (i, depth)
      if charAt s p.1 = Token_End && decide (p.1 + 1 ≤ e)
          && charAt s (p.1 + 1) = Token_End
          && charAt s (p.1 - 1) ≠ Token_Escape then
        if p.2 = 0 then p.1 + 1
        else tk_go s e f (p.1 + 2) (p.2 - 1)
      else tk_go s e f (p.1 + 1) p.2

end ZTextV

namespace ZTextV

/- The recursive parser: `parse_token_` (`ZText.h:1357`), the top-level
loop `parse_` (`ZText.h:998`), and the public entry points
`ztext::parse(string, Element*&)` (`ZText.h:3024`) and
`ztext::parse(string, begin, end, Element*&)` (`ZText.h:3044`).

Every function takes a fuel argument consumed one unit per loop iteration
and per recursive sub-parse (the C++ recursion is bounded only by the call
stack).  Errors carry a `Nat`: the number of heap `Element` nodes that the
C++ code had allocated in the failing call tree and does NOT destroy
before propagating the error (the top-level loop destroys its own
accumulated sibling chain on error, but the early `return error`
statements inside `parse_token_` — `ZText.h:1461, 1496, 1538, 1562` —
abandon the freshly created element together with any literal contents
already attached to it).  `parse_arr_lit` / `parse_map_lit` model the
per-value sub-parse loops of the Array / Map token paths. -/
mutual
def parse_token_ (s : Chars) (b e : Nat) (fuel : Nat) :
    Nat × Except (Err × Nat) Element :=
  match fuel with
  | 0 => (b, .error (.Fuel_Exhausted, 0))
  | g+1 =>
    let index_begin := b + 2
    let iEnd := tk_go s e (e + 2) index_begin 0
    if iEnd > e then
      (index_begin, .error (.Error_Parser_Token_End_Marker_Missing, 0))
    else
      let tok0 : Token := { tbegin := b, tend := iEnd }
      match parse_token_name_ tok0 s with
      | .error err => (b, .error (err, 0))
      | .ok tok1 =>
        let tok2 := parse_token_identifier_ tok1 s
        let name : String := ⟨substr_ s tok2.name_begin tok2.name_end⟩
        if tok2.type = Identifier_Array then
          let tok3 := (parse_token_array_ tok2 s).1
          let sel : String := if tok3.content_begin ≠ 0 then
              ⟨substr_ s tok3.content_begin tok3.content_end⟩ else ""
          if tok3.property_begin ≠ 0 then
            let raws := (parse_vs s tok3.property_begin tok3.property_end).1
            match parse_arr_lit raws [] g with
            | .error (err, leak) => (b, .error (err, 1 + leak))
            | .ok lit => (iEnd + 1, .ok (.arr name sel lit))
          else (iEnd + 1, .ok (.arr name sel []))
        else if tok2.type = Identifier_Map then
          let tok3 := (parse_token_map_ tok2 s).1
          let sel : String := if tok3.content_begin ≠ 0 then
              ⟨substr_ s tok3.content_begin tok3.content_end⟩ else ""
          if tok3.property_begin ≠ 0 then
            let raw := (parse_ms s tok3.property_begin tok3.property_end).1
            match parse_map_lit raw [] g with
            | .error (err, leak) => (b, .error (err, 1 + leak))
            | .ok lit => (iEnd + 1, .ok (.mapE name sel lit))
          else (iEnd + 1, .ok (.mapE name sel []))
        else if tok2.type = Identifier_Variable then
          let tok3 := (parse_token_variable_ tok2 s).1
          if tok3.content_begin ≠ 0 then
            match parsePub (substr_ s tok3.content_begin tok3.content_end) g with
            | .error (err, leak) => (b, .error (err, 1 + leak))
            | .ok content => (iEnd + 1, .ok (.var name content))
          else (iEnd + 1, .ok (.var name []))
        else
          let tok3 := (parse_token_command_ tok2 s).1
          let props := if tok3.property_begin ≠ 0 then
              (parse_ms s tok3.property_begin tok3.property_end).1 else []
          if tok3.content_begin ≠ 0 then
            match parsePub (substr_ s tok3.content_begin tok3.content_end) g with
            | .error (err, leak) => (b, .error (err, 1 + leak))
            | .ok content => (iEnd + 1, .ok (.cmd name props content))
          else (iEnd + 1, .ok (.cmd name props []))
termination_by structural fuel

def parse_arr_lit (raws : List Chars) (acc : List (List Element))
    (fuel : Nat) : Except (Err × Nat) (List (List Element)) :=
  match fuel with
  | 0 =>
    match raws with
    | [] => .ok acc
    | _ :: _ => .error (.Fuel_Exhausted, litSize acc)
  | f+1 =>
    match raws with
    | [] => .ok acc
    | raw :: rest =>
      match parsePub raw f with
      | .error (err, leak) => .error (err, litSize acc + leak)
      | .ok ch => parse_arr_lit rest (acc ++ [ch]) f
termination_by structural fuel

def parse_map_lit (raw : List (String × String))
    (acc : List (String × List Element))
    (fuel : Nat) : Except (Err × Nat) (List (String × List Element)) :=
  match fuel with
  | 0 =>
    match raw with
    | [] => .ok acc
    | _ :: _ => .error (.Fuel_Exhausted, mlitSize acc)
  | f+1 =>
    match raw with
    | [] => .ok acc
    | (k, v) :: rest =>
      match parsePub v.data f with
      | .error (err, leak) => .error (err, mlitSize acc + leak)
      | .ok ch => parse_map_lit rest (msetIns acc k ch) f
termination_by structural fuel

def parseLoop (s : Chars) (b e : Nat) (acc : List Element)
    (fuel : Nat) : Except (Err × Nat) (List Element) :=
  match fuel with
  | 0 => if b > e then .ok acc else .error (.Fuel_Exhausted, 0)
  | f+1 =>
    if b > e then .ok acc
    else if decide (b + 1 ≤ e) && charAt s b = Token_Begin
        && charAt s (b+1) = Token_Begin then
      match parse_token_ s b e f with
      | (_, .error p) => .error p
      | (b', .ok elem) => parseLoop s b' e (acc ++ [elem]) f
    else
      match parse_text_ s b e with
      | (b', .error .Error_Parser_No_Text_Found) => parseLoop s b' e acc f
      | (_, .error err) => .error (err, 0)
      | (b', .ok elem) => parseLoop s b' e (acc ++ [elem]) f
termination_by structural fuel

def parseRange (s : Chars) (b e : Nat) (fuel : Nat) :
    Except (Err × Nat) (List Element) :=
  match fuel with
  | 0 => .error (.Fuel_Exhausted, 0)
  | g+1 =>
    if s.isEmpty then .ok [.text ""]
    else
      match parseLoop s b e [] g with
      | .error (.Error_Parser_No_Text_Found, _) => .ok [.text ""]
      | .error p => .error p
      | .ok [] => .ok [.text ""]
      | .ok es => .ok es
termination_by structural fuel

def parsePub (s : Chars) (fuel : Nat) : Except (Err × Nat) (List Element) :=
  match fuel with
  | 0 => .error (.Fuel_Exhausted, 0)
  | g+1 =>
    if s.isEmpty then .ok [.text ""]
    else parseRange s 0 (s.length - 1) g
termination_by structural fuel
end

/-- `ztext::parse(const std::string&, Element*&)` on a Lean `String`. -/
def parse (s : String) (fuel : Nat) : Except (Err × Nat) (List Element) :=
  parsePub s.data fuel

/-- Chain produced by a successful parse (`[]` when the parse failed);
convenience accessor for stating concrete evaluation results. -/
def parsedChain (s : String) (fuel : Nat) : List Element :=
  match parse s fuel with
  | .ok es => es
  | .error _ => []

end ZTextV

namespace ZTextV

/-- Specification-level whitespace collapsing (the amended reading of the
spec's `collapse_whitespace`): EVERY maximal run of whitespace — leading
and trailing runs included — becomes a single space. -/
def collapse_runs : Chars → Chars
  | [] => []
  | ch :: rest =>
    if is_space_ ch then
      ' ' :: collapse_runs (rest.dropWhile is_space_)
    else ch :: collapse_runs rest
termination_by l => l.length
decreasing_by
  · exact Nat.lt_succ_of_le (List.dropWhile_sublist _).length_le
  · exact Nat.lt_succ_of_le (Nat.le_refl _)

/-- A character that is not a token marker, not the escape character and
not whitespace — text made of these is parsed and evaluated verbatim. -/
def plainChar (ch : Char) : Bool :=
  !(ch = Token_Begin || ch = Token_End || ch = Token_Escape || is_space_ ch)

/-- Evaluation of `es` in context `c` runs out of stack for every fuel
bound: the C++ evaluation, which has no cycle detection, never returns. -/
def loops_forever (c : Ctx) (es : List Element) : Prop :=
  ∀ fuel, evalChain host0 fuel c es = .fuelOut

/-- Building blocks of the amended C9 text grammar: a text assembled, in
any order and number, from plain characters and the two escape sequences
(backslash followed by a doubled begin marker, backslash followed by a
doubled end marker). -/
inductive EscBlock where
  | plain (ch : Char)
  | openPair
  | closePair

/-- The characters a block contributes to the raw (stored) text. -/
def blockRaw : EscBlock → Chars
  | .plain ch => [ch]
  | .openPair => ['\\', '{', '{']
  | .closePair => ['\\', '}', '}']

/-- The characters a block contributes to the evaluated text: the escape
pairs lose their backslash. -/
def blockCooked : EscBlock → Chars
  | .plain ch => [ch]
  | .openPair => ['{', '{']
  | .closePair => ['}', '}']

/-- Wellformedness of a block: the character of a `plain` block is plain
in the sense of `plainChar`. -/
def blockOK : EscBlock → Bool
  | .plain ch => plainChar ch
  | .openPair => true
  | .closePair => true

def blocksRaw : List EscBlock → Chars
  | [] => []
  | b :: bs => blockRaw b ++ blocksRaw bs

def blocksCooked : List EscBlock → Chars
  | [] => []
  | b :: bs => blockCooked b ++ blocksCooked bs

end ZTextV

namespace ZTextV

theorem mget_mset_self {α : Type} (m : List (String × α)) (k : String) (v : α) :
    mget (mset m k v) k = some v := by
  simp [mget, mset, List.find?]

theorem find?_filter_keep {α : Type} (as : List (String × α)) (k k' : String)
    (h : k' ≠ k) :
    List.find? (fun p => p.1 = k') (as.filter (fun p => p.1 ≠ k)) =
    List.find? (fun p => p.1 = k') as := by
  induction as with
  | nil => rfl
  | cons a as ih =>
    by_cases ha : a.1 = k
    · have h1 : (decide (a.1 ≠ k)) = false := by simp [ha]
      have h2 : (decide (a.1 = k')) = false := by
        simp only [decide_eq_false_iff_not]
        rw [ha]; exact fun hkk => h hkk.symm
      simp only [List.filter, h1, List.find?, h2]
      exact ih
    · have h1 : (decide (a.1 ≠ k)) = true := by simp [ha]
      simp only [List.filter, h1]
      rw [List.find?, List.find?]
      by_cases ha' : a.1 = k'
      · simp [ha']
      · have h2 : (decide (a.1 = k')) = false := by simp [ha']
        simp only [h2]
        exact ih

theorem mget_mset_ne {α : Type} (m : List (String × α)) {k k' : String} (v : α)
    (h : k' ≠ k) : mget (mset m k v) k' = mget m k' := by
  unfold mget mset
  rw [List.find?]
  have hk : (decide ((k, v).1 = k')) = false := by
    simp only [decide_eq_false_iff_not]
    exact fun hkk => h hkk.symm
  simp only [hk]
  rw [find?_filter_keep m k k' h]

end ZTextV

namespace ZTextV

/-- C1 counterexample: the claim says that after
`variable_set(ctx, "v", textA, readonly=true)` followed by
`variable_set(ctx, "v", textB, readonly=false)` a get occurrence of `"v"`
still evaluates to A's content.  In the code `ztext::variable_set`
overwrites the stored chain and the read-only flag unconditionally
(`ZText.h:2818-2824` have no read-only check), so the get evaluates to
`"B"`, not `"A"`. -/
theorem claim_C1_counterexample :
    resStr (evalChain host0 5
      (variable_set (variable_set emptyCtx "v" [.text "A"] true)
        "v" [.text "B"] false)
      [.var "v" []]) = some "B" ∧ "B" ≠ "A" :=
  ⟨rfl, by decide⟩

/-- C1 (amended): a direct `variable_set` call always overwrites the
stored chain and the read-only flag, regardless of any read-only flag
installed by an earlier call: after `variable_set(ctx, n, A, true)` and
then `variable_set(ctx, n, B, false)`, a get occurrence of `n` evaluates
the chain `B` (the read-only lock gates only Variable set occurrences
inside `eval`, not the registry accessor itself). -/
theorem claim_C1_amended (host : Host) (fuel : Nat) (c : Ctx) (n : String)
    (A B : List Element) :
    evalElement host (fuel+1)
      (variable_set (variable_set c n A true) n B false) (.var n []) =
    evalChain host fuel
      (variable_set (variable_set c n A true) n B false) B := by
  have hv : variable_get (variable_set (variable_set c n A true) n B false) n
      = some B := by
    unfold variable_get variable_set
    simp [mget_mset_self]
  simp [evalElement, hv]

/-- C5: on the input `{{v$ {{}} }}` the parser propagates the first error
(`Error_Parser_Token_Name_Missing`, from the nested empty token `{{}}`),
but the Variable element already constructed by `parse_token_` is NOT
destroyed before the early `return error` at `ZText.h:1562-1569`: exactly
one allocated node leaks, contradicting the claim that every element
constructed in the failing call is destroyed. -/
theorem claim_C5_leaked_element :
    parse "\x7b\x7bv$ \x7b\x7b\x7d\x7d \x7d\x7d" 20 =
      .error (.Error_Parser_Token_Name_Missing, 1) ∧ (1 : Nat) ≠ 0 :=
  ⟨rfl, by decide⟩

/-- C7: against a fresh context `{{arr@2[foo,bar,abc]}}` evaluates to
`"abc"`; `{{arr@[foo,bar,abc]}}` (no index) evaluates to `""` because the
default index equals the literal's length, while the array is still
cached; and afterwards `{{arr@1}}` against the resulting context
evaluates to `"bar"`. -/
theorem claim_C7 :
    parse "\x7b\x7barr@2[foo,bar,abc]\x7d\x7d" 60 =
      .ok [.arr "arr" "2" [[.text "foo"], [.text "bar"], [.text "abc"]]] ∧
    resStr (evalChain host0 60 emptyCtx
      (parsedChain "\x7b\x7barr@2[foo,bar,abc]\x7d\x7d" 60)) = some "abc" ∧
    parse "\x7b\x7barr@[foo,bar,abc]\x7d\x7d" 60 =
      .ok [.arr "arr" "" [[.text "foo"], [.text "bar"], [.text "abc"]]] ∧
    resStr (evalChain host0 60 emptyCtx
      (parsedChain "\x7b\x7barr@[foo,bar,abc]\x7d\x7d" 60)) = some "" ∧
    resStr (evalChain host0 60
      ((resCtx (evalChain host0 60 emptyCtx
        (parsedChain "\x7b\x7barr@[foo,bar,abc]\x7d\x7d" 60))).getD emptyCtx)
      (parsedChain "\x7b\x7barr@1\x7d\x7d" 60)) = some "bar" :=
  ⟨rfl, rfl, rfl, rfl, rfl⟩

/-- C8: the self-referential input `{{foo$ {{bar$ {{foo$}} }} }}` parses
to a Variable set occurrence of `foo` whose body sets `bar` to a get of
`foo`; evaluating it against a fresh context terminates (a finite fuel
bound suffices) with result `""`, because the inner get of `foo` observes
the not-yet-cached registry state. -/
theorem claim_C8 :
    parse "\x7b\x7bfoo$ \x7b\x7bbar$ \x7b\x7bfoo$\x7d\x7d \x7d\x7d \x7d\x7d" 60 =
      .ok [.var "foo" [.var "bar" [.var "foo" []]]] ∧
    resStr (evalChain host0 60 emptyCtx
      [.var "foo" [.var "bar" [.var "foo" []]]]) = some "" :=
  ⟨rfl, rfl⟩

/-- C10: the token parser accepts `{{arr@abc}}` (the selector may be any
run of alphanumeric/underscore characters, `ZText.h:1696-1714`), but
`element_eval_array_` resolves the selector with `std::stoul`
(`ZText.h:651`) before any other check; `stoul("abc")` throws
`std::invalid_argument` inside a `noexcept` function, so evaluation
aborts the program instead of returning a string. -/
theorem claim_C10_abort :
    parse "\x7b\x7barr@abc\x7d\x7d" 20 = .ok [.arr "arr" "abc" []] ∧
    evalChain host0 20 emptyCtx [.arr "arr" "abc" []] = .abort ∧
    stoul "abc" = none :=
  ⟨rfl, rfl, rfl⟩

/-- C6 counterexample: the claim says leading/trailing whitespace of the
whole input is preserved and only internal runs collapse; the code's
`whitespace_clean_` collapses EVERY maximal whitespace run, so the
leading run of `"  a"` becomes a single space. -/
theorem claim_C6_counterexample :
    whitespace_clean_ "  a" = " a" ∧ " a" ≠ "  a" :=
  ⟨rfl, by decide⟩

/-- C9 counterexample: the input `x\{{{y}}` contains the escape sequence
`\{{`, yet `eval(parse(text))` does not reproduce a literal `{{` with the
backslash removed: the character after the escaped pair forms a second
`{{` that the parser does treat as a token delimiter, the text run
becomes `x\{` (whose lone `\{` is not an escape pair, so the backslash
survives evaluation), and `y` parses as a Command. -/
theorem claim_C9_counterexample :
    parse "x\\\x7b\x7b\x7by\x7d\x7d" 20 =
      .ok [.text "x\\\x7b", .cmd "y" [] []] ∧
    resStr (evalChain host0 20 emptyCtx
      [.text "x\\\x7b", .cmd "y" [] []]) = some "x\\\x7b" ∧
    ("x\\\x7b").data.contains '\\' = true :=
  ⟨rfl, rfl, rfl⟩

/-- C3 (amended): evaluation degrades missing names to empty output
rather than failing — a Command element whose name is not registered
evaluates to `""` with the context unchanged, and a Variable get
occurrence whose name is not cached evaluates to `""` with the context
unchanged.  (Evaluation returns a string whenever it terminates, but
termination is not guaranteed: see the C3 counterexample.) -/
theorem claim_C3_amended (host : Host) (fuel : Nat) (c : Ctx)
    (cname : String) (props : List (String × String)) (ch : List Element)
    (vname : String)
    (hc : c.cmds.contains cname = false)
    (hv : variable_get c vname = none) :
    evalElement host (fuel+1) c (.cmd cname props ch) = .ok c "" ∧
    evalElement host (fuel+1) c (.var vname []) = .ok c "" := by
  constructor
  · show (if c.cmds.contains cname = false then _ else _) = _
    rw [if_pos hc]
  · show evalChain host fuel c ((variable_get c vname).getD []) = _
    rw [hv]
    cases fuel <;> rfl

/-- C3 amended, witness at a concrete instance. -/
theorem claim_C3_amended_witness :
    evalElement host0 3 emptyCtx (.cmd "nope" [] []) = .ok emptyCtx "" ∧
    evalElement host0 3 emptyCtx (.var "w" []) = .ok emptyCtx "" :=
  claim_C3_amended host0 2 emptyCtx "nope" [] [] "w" (by rfl) (by rfl)

/-- C4: whenever the public parse succeeds the resulting chain is
non-empty; the empty input parses successfully to a single empty Text
element, and an empty Text element evaluates to `""`. -/
theorem claim_C4 :
    (∀ fuel s ch, parsePub s fuel = .ok ch → ch ≠ []) ∧
    (∀ fuel, parse "" (fuel+1) = .ok [.text ""]) ∧
    (∀ (host : Host) fuel c, evalChain host (fuel+2) c [.text ""] = .ok c "") := by
  refine ⟨?_, ?_, ?_⟩
  · intro fuel s ch h
    match fuel with
    | 0 => exact absurd h (by simp [parsePub])
    | g+1 =>
      rw [parsePub] at h
      split at h
      · cases h; simp
      · match g with
        | 0 => exact absurd h (by simp [parseRange])
        | g'+1 =>
          rw [parseRange] at h
          split at h
          · cases h; simp
          · split at h
            · cases h; simp
            · cases h
            · cases h; simp
            · rename_i es hne heq
              cases h
              exact hne
  · intro fuel; rfl
  · intro host fuel c; rfl

/-- C4, witness at a concrete instance. -/
theorem claim_C4_witness : ([Element.text "x"] : List Element) ≠ [] :=
  claim_C4.1 3 "x".data [Element.text "x"] (by rfl)

end ZTextV

namespace ZTextV

theorem evalChain_nil (host : Host) (f : Nat) (c : Ctx) :
    evalChain host f c [] = .ok c "" := by
  cases f <;> rfl

/-- Frame property of evaluation for a read-only-locked variable name:
as long as `variable_readonly[n]` is `true`, no evaluation step writes
`variables[n]` or `variable_readonly[n]` (the only writer,
`element_eval_variable_`'s set path, is gated by the read-only check, and
the Array/Map set paths touch different registries). -/
theorem eval_locked_frame (host : Host) (n : String) :
    ∀ fuel : Nat,
      (∀ c es c' s, mget c.varRO n = some true →
        evalChain host fuel c es = .ok c' s →
        mget c'.vars n = mget c.vars n ∧ mget c'.varRO n = some true) ∧
      (∀ c el c' s, mget c.varRO n = some true →
        evalElement host fuel c el = .ok c' s →
        mget c'.vars n = mget c.vars n ∧ mget c'.varRO n = some true) := by
  intro fuel
  induction fuel with
  | zero =>
    constructor
    · intro c es c' s hRO h
      cases es with
      | nil => cases h; exact ⟨rfl, hRO⟩
      | cons e r => exact absurd h (by simp [evalChain])
    · intro c el c' s hRO h
      exact absurd h (by simp [evalElement])
  | succ f ih =>
    constructor
    · intro c es c' s hRO h
      cases es with
      | nil => cases h; exact ⟨rfl, hRO⟩
      | cons e r =>
        simp only [evalChain] at h
        cases he : evalElement host f c e with
        | ok c2 s2 =>
          rw [he] at h
          dsimp only at h
          have h2 := ih.2 c e c2 s2 hRO he
          cases hr : evalChain host f c2 r with
          | ok c3 s3 =>
            rw [hr] at h
            dsimp only at h
            cases h
            have h3 := ih.1 _ _ _ _ h2.2 hr
            exact ⟨h3.1.trans h2.1, h3.2⟩
          | abort => rw [hr] at h; cases h
          | fuelOut => rw [hr] at h; cases h
        | abort => rw [he] at h; cases h
        | fuelOut => rw [he] at h; cases h
    · intro c el c' s hRO h
      cases el with
      | text t =>
        simp only [evalElement] at h
        cases h
        exact ⟨rfl, hRO⟩
      | var name child =>
        cases child with
        | nil =>
          simp only [evalElement] at h
          exact ih.1 _ _ _ _ hRO h
        | cons x xs =>
          simp only [evalElement] at h
          by_cases hro : mget c.varRO name = some true
          · rw [if_pos hro] at h
            exact ih.1 _ _ _ _ hRO h
          · rw [if_neg hro] at h
            cases he : evalChain host f c (x :: xs) with
            | ok c2 s2 =>
              rw [he] at h
              dsimp only at h
              cases h
              have h2 := ih.1 _ _ _ _ hRO he
              have hne : n ≠ name := fun heq => hro (heq ▸ hRO)
              constructor
              · show mget (mset c2.vars name _) n = mget c.vars n
                rw [mget_mset_ne _ _ hne, h2.1]
              · show mget (mset c2.varRO name false) n = some true
                rw [mget_mset_ne _ _ hne]
                exact h2.2
            | abort => rw [he] at h; cases h
            | fuelOut => rw [he] at h; cases h
      | cmd name props ch =>
        simp only [evalElement] at h
        by_cases hc : c.cmds.contains name = false
        · rw [if_pos hc] at h
          cases h
          exact ⟨rfl, hRO⟩
        · rw [if_neg hc] at h
          cases he : evalChain host f c ch with
          | ok c2 s2 =>
            rw [he] at h
            dsimp only at h
            cases h
            exact ih.1 _ _ _ _ hRO he
          | abort => rw [he] at h; cases h
          | fuelOut => rw [he] at h; cases h
      | arr name sel lit =>
        simp only [evalElement] at h
        cases hidx : (if sel = "" then some lit.length else stoul sel) with
        | none => rw [hidx] at h; cases h
        | some idx =>
          rw [hidx] at h
          dsimp only at h
          cases lit with
          | nil => exact ih.1 _ _ _ _ hRO h
          | cons l ls =>
            by_cases hro : mget c.arrRO name = some true
            · rw [if_pos hro] at h
              exact ih.1 _ _ _ _ hRO h
            · rw [if_neg hro] at h
              cases hg : (l :: ls).get? idx with
              | none =>
                rw [hg] at h
                dsimp only at h
                cases h
                exact ⟨rfl, hRO⟩
              | some chn =>
                rw [hg] at h
                dsimp only at h
                cases he : evalChain host f c chn with
                | ok c2 s2 =>
                  rw [he] at h
                  dsimp only at h
                  cases h
                  have h2 := ih.1 _ _ _ _ hRO he
                  exact ⟨h2.1, h2.2⟩
                | abort => rw [he] at h; cases h
                | fuelOut => rw [he] at h; cases h
      | mapE name sel lit =>
        simp only [evalElement] at h
        cases lit with
        | nil => exact ih.1 _ _ _ _ hRO h
        | cons l ls =>
          by_cases hro : mget c.mapRO name = some true
          · rw [if_pos hro] at h
            exact ih.1 _ _ _ _ hRO h
          · rw [if_neg hro] at h
            cases hg : mget (l :: ls) sel with
            | none =>
              rw [hg] at h
              dsimp only at h
              cases h
              exact ⟨rfl, hRO⟩
            | some chn =>
              rw [hg] at h
              dsimp only at h
              cases he : evalChain host f c chn with
              | ok c2 s2 =>
                rw [he] at h
                dsimp only at h
                cases h
                have h2 := ih.1 _ _ _ _ hRO he
                exact ⟨h2.1, h2.2⟩
              | abort => rw [he] at h; cases h
              | fuelOut => rw [he] at h; cases h

end ZTextV

namespace ZTextV

/-- C2: evaluating a Variable set occurrence (non-null child) whose name
is read-only-locked in the context leaves `variables[name]` and
`variable_readonly[name]` unchanged and returns the evaluation of the
stored locked chain — not the evaluation of the element's child
(`element_eval_variable_`, `ZText.h:782-790`). -/
theorem claim_C2 (host : Host) (fuel : Nat) (c : Ctx) (name : String)
    (child : List Element) (hch : child ≠ [])
    (hRO : mget c.varRO name = some true) :
    evalElement host (fuel+1) c (.var name child) =
      evalChain host fuel c ((variable_get c name).getD []) ∧
    (∀ c' s, evalElement host (fuel+1) c (.var name child) = .ok c' s →
      mget c'.vars name = mget c.vars name ∧
      mget c'.varRO name = some true) := by
  constructor
  · cases child with
    | nil => exact absurd rfl hch
    | cons x xs =>
      simp only [evalElement]
      rw [if_pos hRO]
  · intro c' s h
    exact (eval_locked_frame host name (fuel+1)).2 c _ c' s hRO h

/-- C2, witness at a concrete instance: with `"v"` locked to the chain
`[Text "A"]`, a set occurrence with child `[Text "B"]` evaluates as a get
of the stored locked value. -/
theorem claim_C2_witness :
    evalElement host0 4 (variable_set emptyCtx "v" [.text "A"] true)
        (.var "v" [.text "B"]) =
      evalChain host0 3 (variable_set emptyCtx "v" [.text "A"] true)
        ((variable_get (variable_set emptyCtx "v" [.text "A"] true) "v").getD []) :=
  (claim_C2 host0 3 (variable_set emptyCtx "v" [.text "A"] true) "v"
    [.text "B"] (by simp) (by rfl)).1

theorem selfloop_fuelOut :
    ∀ fuel (c : Ctx), mget c.vars "v" = some [Element.var "v" []] →
      evalChain host0 fuel c [Element.var "v" []] = .fuelOut := by
  intro fuel
  induction fuel using Nat.strong_induction_on with
  | _ fuel ih =>
    intro c hv
    match fuel with
    | 0 => rfl
    | 1 => rfl
    | g+2 =>
      show (match evalElement host0 (g+1) c (Element.var "v" []) with
        | .ok c2 s =>
          match evalChain host0 (g+1) c2 [] with
          | .ok c3 s2 => EvalRes.ok c3 (s ++ s2)
          | r => r
        | r => r) = EvalRes.fuelOut
      have he : evalElement host0 (g+1) c (Element.var "v" []) = .fuelOut := by
        show evalChain host0 g c ((variable_get c "v").getD []) = .fuelOut
        rw [show variable_get c "v" = some [Element.var "v" []] from hv]
        exact ih g (by omega) c hv
      rw [he]

/-- C3 counterexample: the claim that eval of any successfully parsed
chain always returns some string is false — `{{v$ {{v$}}}}{{v$}}` parses
successfully, but evaluating it against a fresh context never returns:
the first element caches `v := [get v]`, and the second element's get of
`v` then recurses through the registry forever (no cycle detection), the
C++ stack overflows. -/
theorem claim_C3_counterexample :
    parse "\x7b\x7bv$ \x7b\x7bv$\x7d\x7d\x7d\x7d\x7b\x7bv$\x7d\x7d" 20 =
      .ok [.var "v" [.var "v" []], .var "v" []] ∧
    loops_forever emptyCtx [.var "v" [.var "v" []], .var "v" []] := by
  constructor
  · rfl
  · intro fuel
    match fuel with
    | 0 => rfl
    | 1 => rfl
    | 2 => rfl
    | 3 => rfl
    | n+4 =>
      show (match evalElement host0 (n+3) emptyCtx (.var "v" [.var "v" []]) with
        | .ok c2 s =>
          match evalChain host0 (n+3) c2 [Element.var "v" []] with
          | .ok c3 s2 => EvalRes.ok c3 (s ++ s2)
          | r => r
        | r => r) = EvalRes.fuelOut
      have he : evalElement host0 (n+3) emptyCtx (.var "v" [.var "v" []]) =
          .ok (variable_set emptyCtx "v" [.var "v" []] false) "" := by
        simp only [evalElement]
        rw [if_neg (by simp [emptyCtx, mget])]
        have hch : evalChain host0 (n+2) emptyCtx [Element.var "v" []] =
            .ok emptyCtx "" := by
          show (match evalElement host0 (n+1) emptyCtx (Element.var "v" []) with
            | .ok c2 s =>
              match evalChain host0 (n+1) c2 [] with
              | .ok c3 s2 => EvalRes.ok c3 (s ++ s2)
              | r => r
            | r => r) = _
          have hg : evalElement host0 (n+1) emptyCtx (Element.var "v" []) =
              .ok emptyCtx "" := by
            show evalChain host0 n emptyCtx
              ((variable_get emptyCtx "v").getD []) = _
            rw [show variable_get emptyCtx "v" = none from rfl]
            exact evalChain_nil host0 n emptyCtx
          rw [hg]
          dsimp only
          rw [evalChain_nil]
          rfl
        rw [hch]
        rfl
      rw [he]
      dsimp only
      rw [selfloop_fuelOut (n+3) _ (by rfl)]

end ZTextV

namespace ZTextV

theorem charAt_eq_getElem (s : Chars) (i : Nat) (h : i < s.length) :
    charAt s i = s[i] := by
  unfold charAt
  rw [List.getD_eq_getElem?_getD, List.getElem?_eq_getElem h]
  rfl

theorem is_space_charAt_of_ge (s : Chars) (i : Nat) (h : s.length ≤ i) :
    is_space_ (charAt s i) = false := by
  unfold charAt
  rw [List.getD_eq_getElem?_getD, List.getElem?_eq_none (by omega)]
  rfl

theorem charAt_lt_of_space (s : Chars) (i : Nat)
    (h : is_space_ (charAt s i) = true) : i < s.length := by
  by_contra hge
  rw [is_space_charAt_of_ge s i (by omega)] at h
  cases h

theorem wr_go_ge (s : Chars) : ∀ fuel j, j ≤ wr_go s fuel j := by
  intro fuel
  induction fuel with
  | zero => intro j; exact Nat.le_refl j
  | succ f ih =>
    intro j
    rw [wr_go]
    split
    · exact Nat.le_trans (Nat.le_succ j) (ih (j+1))
    · exact Nat.le_refl j

theorem wr_go_drop (s : Chars) : ∀ fuel j, s.length + 1 - j ≤ fuel →
    s.drop (wr_go s fuel j) = (s.drop j).dropWhile is_space_ := by
  intro fuel
  induction fuel with
  | zero =>
    intro j hj
    rw [wr_go, List.drop_eq_nil_of_le (by omega : s.length ≤ j)]
    rfl
  | succ f ih =>
    intro j hj
    rw [wr_go]
    by_cases hsp : is_space_ (charAt s j) = true
    · rw [if_pos hsp]
      have hlt : j < s.length := charAt_lt_of_space s j hsp
      have hdj : s.drop j = s[j] :: s.drop (j+1) := List.drop_eq_getElem_cons hlt
      have hc : is_space_ s[j] = true := by
        rw [charAt_eq_getElem s j hlt] at hsp; exact hsp
      rw [ih (j+1) (by omega), hdj, List.dropWhile_cons_of_pos hc]
    · rw [if_neg hsp]
      by_cases hlt : j < s.length
      · have hdj : s.drop j = s[j] :: s.drop (j+1) := List.drop_eq_getElem_cons hlt
        have hc : is_space_ s[j] = false := by
          rw [charAt_eq_getElem s j hlt] at hsp; simpa using hsp
        conv_rhs => rw [hdj, List.dropWhile_cons_of_neg (by simp [hc])]
        exact hdj
      · rw [List.drop_eq_nil_of_le (by omega : s.length ≤ j)]
        rfl

theorem ws_run_end_ge (s : Chars) (j : Nat) : j ≤ ws_run_end s j :=
  wr_go_ge s _ j

theorem ws_run_end_drop (s : Chars) (j : Nat) :
    s.drop (ws_run_end s j) = (s.drop j).dropWhile is_space_ :=
  wr_go_drop s _ j (Nat.le_refl _)

theorem collapse_runs_cons_space (c : Char) (l : Chars)
    (h : is_space_ c = true) :
    collapse_runs (c :: l) = ' ' :: collapse_runs (l.dropWhile is_space_) := by
  rw [collapse_runs, if_pos h]

theorem collapse_runs_cons_nospace (c : Char) (l : Chars)
    (h : is_space_ c = false) :
    collapse_runs (c :: l) = c :: collapse_runs l := by
  rw [collapse_runs, if_neg (by simp [h])]

theorem wc_go_spec : ∀ fuel (s : Chars) (i : Nat), s.length + 1 - i ≤ fuel →
    wc_go fuel s i = s.take i ++ collapse_runs (s.drop i) := by
  intro fuel
  induction fuel with
  | zero =>
    intro s i hi
    have hlen : s.length ≤ i := by omega
    rw [wc_go, List.take_of_length_le hlen, List.drop_eq_nil_of_le hlen,
      collapse_runs, List.append_nil]
  | succ f ih =>
    intro s i hi
    rw [wc_go]
    by_cases hlt : i < s.length
    · rw [if_pos hlt]
      have hdi : s.drop i = s[i] :: s.drop (i+1) := List.drop_eq_getElem_cons hlt
      by_cases hsp : is_space_ (charAt s i) = true
      · rw [if_neg (by simp [hsp])]
        have hci : is_space_ s[i] = true := by
          rw [charAt_eq_getElem s i hlt] at hsp; exact hsp
        have hj1 : i + 1 ≤ ws_run_end s (i+1) := ws_run_end_ge s (i+1)
        have htk : (s.take i).length = i := by
          rw [List.length_take]; omega
        have hlen' : (s.take i ++ ' ' :: s.drop (ws_run_end s (i+1))).length
            = i + 1 + (s.length - ws_run_end s (i+1)) := by
          simp [htk]
          omega
        rw [ih _ (i+1) (by rw [hlen']; omega)]
        have h1 : (s.take i ++ ' ' :: s.drop (ws_run_end s (i+1))).take (i+1)
            = s.take i ++ [' '] := by
          have h : (s.take i ++ ' ' :: s.drop (ws_run_end s (i+1))).take
              ((s.take i).length + 1)
              = s.take i ++ (' ' :: s.drop (ws_run_end s (i+1))).take 1 :=
            List.take_append 1
          rw [htk] at h
          simpa using h
        have h2 : (s.take i ++ ' ' :: s.drop (ws_run_end s (i+1))).drop (i+1)
            = s.drop (ws_run_end s (i+1)) := by
          have h : (s.take i ++ ' ' :: s.drop (ws_run_end s (i+1))).drop
              ((s.take i).length + 1)
              = (' ' :: s.drop (ws_run_end s (i+1))).drop 1 :=
            List.drop_append 1
          rw [htk] at h
          simpa using h
        rw [h1, h2]
        conv_rhs => rw [hdi, collapse_runs_cons_space _ _ hci,
          ← ws_run_end_drop s (i+1)]
        simp
      · rw [if_pos (by simpa using hsp)]
        have hci : is_space_ s[i] = false := by
          rw [charAt_eq_getElem s i hlt] at hsp; simpa using hsp
        rw [ih s (i+1) (by omega)]
        have htk : s.take (i+1) = s.take i ++ [s[i]] := by
          rw [List.take_succ, List.getElem?_eq_getElem hlt]
          rfl
        rw [htk]
        conv_rhs => rw [hdi, collapse_runs_cons_nospace _ _ hci]
        rw [List.append_assoc]
        rfl
    · rw [if_neg hlt]
      rw [List.take_of_length_le (by omega), List.drop_eq_nil_of_le (by omega),
        collapse_runs, List.append_nil]

/-- C6 (amended): the code's `whitespace_clean_` replaces EVERY maximal
run of C-whitespace by a single space — including the leading and
trailing runs of the input, which are collapsed to one space rather than
preserved.  Formally it coincides with the run-collapsing function
`collapse_runs` on all strings. -/
theorem claim_C6_amended (s : String) :
    whitespace_clean_ s = ⟨collapse_runs s.data⟩ := by
  unfold whitespace_clean_ whitespace_clean_chars
  rw [wc_go_spec (s.data.length + 1) s.data 0 (by omega)]
  rfl

end ZTextV

namespace ZTextV

theorem plain_facts (x : Char) (h : plainChar x = true) :
    x ≠ Token_Begin ∧ x ≠ Token_End ∧ x ≠ Token_Escape ∧ is_space_ x = false := by
  simp only [plainChar, Bool.not_eq_true', Bool.or_eq_false_iff,
    decide_eq_false_iff_not] at h
  exact ⟨h.1.1.1, h.1.1.2, h.1.2, h.2⟩

theorem charAt_append_right (u v : Chars) (k : Nat) :
    charAt (u ++ v) (u.length + k) = charAt v k := by
  unfold charAt
  rw [List.getD_append_right u v _ _ (by omega)]
  congr 1
  omega

theorem charAt_append_head (u : Chars) (x : Char) (v : Chars) :
    charAt (u ++ x :: v) u.length = x := by
  have := charAt_append_right u (x :: v) 0
  simpa using this

theorem eraseAt_append (u : Chars) (x : Char) (v : Chars) :
    eraseAt (u ++ x :: v) u.length = u ++ v := by
  unfold eraseAt
  rw [List.take_left u (x :: v)]
  have h1 : (u ++ x :: v).drop (u.length + 1) = (x :: v).drop 1 :=
    List.drop_append 1
  rw [h1]
  rfl

theorem esr_step_skip (f : Nat) (s : Chars) (i : Nat) (h1 : i < s.length)
    (h2 : charAt s i ≠ Token_Escape) : esr_go (f+1) s i = esr_go f s (i+1) := by
  rw [esr_go, if_pos h1, if_pos h2]

theorem esr_step_open (f : Nat) (s : Chars) (i : Nat)
    (h1 : charAt s i = Token_Escape) (h2 : i + 2 < s.length)
    (h3 : charAt s (i+1) = Token_Begin) (h4 : charAt s (i+2) = Token_Begin) :
    esr_go (f+1) s i = esr_go f (eraseAt s i) (i+2) := by
  rw [esr_go, if_pos (by omega : i < s.length), if_neg (by simp [h1]),
    if_pos h2, if_pos (by simp [h3, h4])]

theorem esr_step_close (f : Nat) (s : Chars) (i : Nat)
    (h1 : charAt s i = Token_Escape) (h2 : i + 2 < s.length)
    (h3 : charAt s (i+1) = Token_End) (h4 : charAt s (i+2) = Token_End) :
    esr_go (f+1) s i = esr_go f (eraseAt s i) (i+2) := by
  rw [esr_go, if_pos (by omega : i < s.length), if_neg (by simp [h1]),
    if_pos h2, if_neg (by simp [h3, Token_Begin, Token_End]),
    if_pos (by simp [h3, h4])]

end ZTextV

namespace ZTextV

theorem charAt_of_drop (s : Chars) (i : Nat) (x : Char) (rest : Chars)
    (h : s.drop i = x :: rest) : charAt s i = x := by
  unfold charAt
  have h0 : s[i]? = some x := by
    have h1 := List.getElem?_drop s i 0
    rw [h] at h1
    simpa using h1.symm
  simp [List.getD_eq_getElem?_getD, h0]

theorem drop_tail (s : Chars) (i : Nat) (x : Char) (rest : Chars)
    (h : s.drop i = x :: rest) : s.drop (i+1) = rest := by
  rw [← List.tail_drop, h]
  rfl

theorem lt_length_of_drop (s : Chars) (i : Nat) (x : Char) (rest : Chars)
    (h : s.drop i = x :: rest) : i < s.length := by
  by_contra hle
  push_neg at hle
  rw [List.drop_eq_nil_of_le hle] at h
  cases h

theorem charAt_of_drop_nil (s : Chars) (i : Nat) (h : s.drop i = []) :
    charAt s i = Char.ofNat 0 := by
  unfold charAt
  have hlen : s.length ≤ i := by
    by_contra hlt
    push_neg at hlt
    have hne : (s.drop i).length = s.length - i := List.length_drop i s
    rw [h] at hne
    simp at hne
    omega
  rw [List.getD_eq_getElem?_getD, List.getElem?_eq_none hlen]
  rfl

theorem pt_step (s : Chars) (e f i : Nat) (hi : i ≤ e)
    (h1 : ¬(charAt s i = Token_Begin ∧ charAt s (i-1) ≠ Token_Escape
      ∧ charAt s (i+1) = Token_Begin))
    (h2 : ¬(charAt s i = Token_End ∧ charAt s (i-1) ≠ Token_Escape
      ∧ charAt s (i+1) = Token_End)) :
    pt_go s e (f+1) i = pt_go s e f (i+1) := by
  rw [pt_go, if_neg (by omega : ¬ i > e),
    if_neg (by
      simp only [Bool.and_eq_true, decide_eq_true_eq]
      tauto),
    if_neg (by
      simp only [Bool.and_eq_true, decide_eq_true_eq]
      tauto)]

theorem pt_finish (s : Chars) (e f i : Nat) (hi : e < i) :
    pt_go s e f i = .endAt i := by
  cases f with
  | zero => rfl
  | succ f' => rw [pt_go, if_pos (by omega : i > e)]

end ZTextV

namespace ZTextV

theorem pt_open3 (s : Chars) (e i f : Nat) (rest : Chars)
    (he : e + 1 = s.length)
    (hd : s.drop i = '\\' :: '{' :: '{' :: rest)
    (hnext : charAt s (i+3) ≠ Token_Begin) :
    pt_go s e (f+3) i = pt_go s e f (i+3) := by
  have hd1 : s.drop (i+1) = '{' :: '{' :: rest := drop_tail s i _ _ hd
  have hd2 : s.drop (i+2) = '{' :: rest := drop_tail s (i+1) _ _ hd1
  have hc0 := charAt_of_drop s i _ _ hd
  have hc1 := charAt_of_drop s (i+1) _ _ hd1
  have hc2 := charAt_of_drop s (i+2) _ _ hd2
  have hl2 := lt_length_of_drop s (i+2) _ _ hd2
  rw [show f + 3 = (f+2)+1 from rfl,
    pt_step s e (f+2) i (by omega)
      (by intro hcon; rw [hc0] at hcon; exact absurd hcon.1 (by decide))
      (by intro hcon; rw [hc0] at hcon; exact absurd hcon.1 (by decide)),
    show f + 2 = (f+1)+1 from rfl,
    pt_step s e (f+1) (i+1) (by omega)
      (by intro hcon; exact hcon.2.1 (by rw [show i+1-1 = i from rfl, hc0]; rfl))
      (by intro hcon; rw [hc1] at hcon; exact absurd hcon.1 (by decide)),
    pt_step s e f (i+2) (by omega)
      (by intro hcon; exact hnext hcon.2.2)
      (by intro hcon; rw [hc2] at hcon; exact absurd hcon.1 (by decide))]

theorem pt_close3 (s : Chars) (e i f : Nat) (rest : Chars)
    (he : e + 1 = s.length)
    (hd : s.drop i = '\\' :: '}' :: '}' :: rest)
    (hnext : charAt s (i+3) ≠ Token_End) :
    pt_go s e (f+3) i = pt_go s e f (i+3) := by
  have hd1 : s.drop (i+1) = '}' :: '}' :: rest := drop_tail s i _ _ hd
  have hd2 : s.drop (i+2) = '}' :: rest := drop_tail s (i+1) _ _ hd1
  have hc0 := charAt_of_drop s i _ _ hd
  have hc1 := charAt_of_drop s (i+1) _ _ hd1
  have hc2 := charAt_of_drop s (i+2) _ _ hd2
  have hl2 := lt_length_of_drop s (i+2) _ _ hd2
  rw [show f + 3 = (f+2)+1 from rfl,
    pt_step s e (f+2) i (by omega)
      (by intro hcon; rw [hc0] at hcon; exact absurd hcon.1 (by decide))
      (by intro hcon; rw [hc0] at hcon; exact absurd hcon.1 (by decide)),
    show f + 2 = (f+1)+1 from rfl,
    pt_step s e (f+1) (i+1) (by omega)
      (by intro hcon; rw [hc1] at hcon; exact absurd hcon.1 (by decide))
      (by intro hcon; exact hcon.2.1 (by rw [show i+1-1 = i from rfl, hc0]; rfl)),
    pt_step s e f (i+2) (by omega)
      (by intro hcon; rw [hc2] at hcon; exact absurd hcon.1 (by decide))
      (by intro hcon; exact hnext hcon.2.2)]

end ZTextV

namespace ZTextV

theorem wcc_eq_collapse (s : Chars) :
    whitespace_clean_chars s = collapse_runs s := by
  unfold whitespace_clean_chars
  rw [wc_go_spec (s.length + 1) s 0 (by omega)]
  rfl

theorem collapse_runs_plain : ∀ (l : Chars),
    (∀ x ∈ l, is_space_ x = false) → collapse_runs l = l := by
  intro l
  induction l with
  | nil => intro _; rw [collapse_runs]
  | cons x l' ih =>
    intro h
    rw [collapse_runs_cons_nospace x l' (h x (by simp)),
      ih (fun y hy => h y (by simp [hy]))]

theorem parseLoop_done (s : Chars) (b e : Nat) (acc : List Element)
    (f : Nat) (h : b > e) : parseLoop s b e acc f = .ok acc := by
  cases f with
  | zero => rw [parseLoop, if_pos h]
  | succ f' => rw [parseLoop, if_pos h]

end ZTextV

namespace ZTextV

theorem blocksRaw_nospace : ∀ (bs : List EscBlock), bs.all blockOK = true →
    ∀ x ∈ blocksRaw bs, is_space_ x = false := by
  intro bs
  induction bs with
  | nil =>
    intro _ x hx
    simp [blocksRaw] at hx
  | cons b bs' ih =>
    intro hok x hx
    simp only [List.all_cons, Bool.and_eq_true] at hok
    rw [blocksRaw, List.mem_append] at hx
    rcases hx with hx | hx
    · cases b with
      | plain ch =>
        have hx1 : x ∈ [ch] := by simpa [blockRaw] using hx
        simp at hx1
        subst hx1
        exact (plain_facts x (by simpa [blockOK] using hok.1)).2.2.2
      | openPair =>
        have hx3 : x ∈ ['\\', '{', '{'] := by simpa [blockRaw] using hx
        fin_cases hx3 <;> rfl
      | closePair =>
        have hx3 : x ∈ ['\\', '}', '}'] := by simpa [blockRaw] using hx
        fin_cases hx3 <;> rfl
    · exact ih hok.2 x hx

theorem blocks_head (bs : List EscBlock) (hok : bs.all blockOK = true)
    (s : Chars) (i : Nat) (hd : s.drop i = blocksRaw bs) :
    charAt s i ≠ Token_Begin ∧ charAt s i ≠ Token_End := by
  cases bs with
  | nil =>
    rw [blocksRaw] at hd
    rw [charAt_of_drop_nil s i hd]
    exact ⟨by decide, by decide⟩
  | cons b bs' =>
    simp only [List.all_cons, Bool.and_eq_true] at hok
    cases b with
    | plain ch =>
      have hd' : s.drop i = ch :: blocksRaw bs' := by
        simpa [blocksRaw, blockRaw] using hd
      rw [charAt_of_drop _ _ _ _ hd']
      have hp : plainChar ch = true := by simpa [blockOK] using hok.1
      exact ⟨(plain_facts ch hp).1, (plain_facts ch hp).2.1⟩
    | openPair =>
      have hd' : s.drop i = '\\' :: ('{' :: '{' :: blocksRaw bs') := by
        simpa [blocksRaw, blockRaw] using hd
      rw [charAt_of_drop _ _ _ _ hd']
      exact ⟨by decide, by decide⟩
    | closePair =>
      have hd' : s.drop i = '\\' :: ('}' :: '}' :: blocksRaw bs') := by
        simpa [blocksRaw, blockRaw] using hd
      rw [charAt_of_drop _ _ _ _ hd']
      exact ⟨by decide, by decide⟩

end ZTextV

namespace ZTextV

theorem esr_blocks : ∀ (bs : List EscBlock), bs.all blockOK = true →
    ∀ (f : Nat) (u : Chars),
    (u ++ blocksRaw bs).length + 1 - u.length ≤ f →
    esr_go f (u ++ blocksRaw bs) u.length = u ++ blocksCooked bs := by
  intro bs
  induction bs with
  | nil =>
    intro _ f u hf
    simp only [blocksRaw, blocksCooked, List.append_nil] at hf ⊢
    cases f with
    | zero => rfl
    | succ f' => rw [esr_go, if_neg (by simp)]
  | cons b bs' ih =>
    intro hok f u hf
    simp only [List.all_cons, Bool.and_eq_true] at hok
    cases b with
    | plain x =>
      have hp : plainChar x = true := by simpa [blockOK] using hok.1
      have hshape : u ++ blocksRaw (EscBlock.plain x :: bs')
          = u ++ x :: blocksRaw bs' := by
        simp [blocksRaw, blockRaw]
      rw [hshape] at hf ⊢
      have hcshape : u ++ blocksCooked (EscBlock.plain x :: bs')
          = u ++ x :: blocksCooked bs' := by
        simp [blocksCooked, blockCooked]
      rw [hcshape]
      have hlen : (u ++ x :: blocksRaw bs').length
          = u.length + 1 + (blocksRaw bs').length := by
        simp
        omega
      match f with
      | 0 => omega
      | f'+1 =>
        rw [esr_step_skip f' _ _ (by omega)
          (by
            rw [charAt_append_head]
            exact (plain_facts x hp).2.2.1)]
        have hsplit : u ++ x :: blocksRaw bs' = (u ++ [x]) ++ blocksRaw bs' := by
          simp
        have hpos2 : u.length + 1 = (u ++ [x]).length := by simp
        rw [hsplit, hpos2, ih hok.2 f' (u ++ [x]) (by simp; omega)]
        simp
    | openPair =>
      have hshape : u ++ blocksRaw (EscBlock.openPair :: bs')
          = u ++ '\\' :: '{' :: '{' :: blocksRaw bs' := by
        simp [blocksRaw, blockRaw]
      rw [hshape] at hf ⊢
      have hcshape : u ++ blocksCooked (EscBlock.openPair :: bs')
          = u ++ '{' :: '{' :: blocksCooked bs' := by
        simp [blocksCooked, blockCooked]
      rw [hcshape]
      have hlen : (u ++ '\\' :: '{' :: '{' :: blocksRaw bs').length
          = u.length + 3 + (blocksRaw bs').length := by
        simp
        omega
      match f with
      | 0 => omega
      | f'+1 =>
        rw [esr_step_open f' _ _ (charAt_append_head u '\\' _) (by omega)
          (by
            have h1 := charAt_append_right u
              ('\\' :: '{' :: '{' :: blocksRaw bs') 1
            simpa using h1)
          (by
            have h2 := charAt_append_right u
              ('\\' :: '{' :: '{' :: blocksRaw bs') 2
            simpa using h2)]
        rw [eraseAt_append u '\\' ('{' :: '{' :: blocksRaw bs')]
        have hsplit : u ++ '{' :: '{' :: blocksRaw bs'
            = (u ++ ['{', '{']) ++ blocksRaw bs' := by simp
        have hpos2 : u.length + 2 = (u ++ ['{', '{']).length := by simp
        rw [hsplit, hpos2, ih hok.2 f' (u ++ ['{', '{']) (by simp; omega)]
        simp
    | closePair =>
      have hshape : u ++ blocksRaw (EscBlock.closePair :: bs')
          = u ++ '\\' :: '}' :: '}' :: blocksRaw bs' := by
        simp [blocksRaw, blockRaw]
      rw [hshape] at hf ⊢
      have hcshape : u ++ blocksCooked (EscBlock.closePair :: bs')
          = u ++ '}' :: '}' :: blocksCooked bs' := by
        simp [blocksCooked, blockCooked]
      rw [hcshape]
      have hlen : (u ++ '\\' :: '}' :: '}' :: blocksRaw bs').length
          = u.length + 3 + (blocksRaw bs').length := by
        simp
        omega
      match f with
      | 0 => omega
      | f'+1 =>
        rw [esr_step_close f' _ _ (charAt_append_head u '\\' _) (by omega)
          (by
            have h1 := charAt_append_right u
              ('\\' :: '}' :: '}' :: blocksRaw bs') 1
            simpa using h1)
          (by
            have h2 := charAt_append_right u
              ('\\' :: '}' :: '}' :: blocksRaw bs') 2
            simpa using h2)]
        rw [eraseAt_append u '\\' ('}' :: '}' :: blocksRaw bs')]
        have hsplit : u ++ '}' :: '}' :: blocksRaw bs'
            = (u ++ ['}', '}']) ++ blocksRaw bs' := by simp
        have hpos2 : u.length + 2 = (u ++ ['}', '}']).length := by simp
        rw [hsplit, hpos2, ih hok.2 f' (u ++ ['}', '}']) (by simp; omega)]
        simp

theorem esr_blocks_top (bs : List EscBlock) (hok : bs.all blockOK = true) :
    escape_sequence_remove_chars (blocksRaw bs) = blocksCooked bs := by
  unfold escape_sequence_remove_chars
  have h := esr_blocks bs hok ((blocksRaw bs).length + 1) [] (by simp)
  simpa using h

end ZTextV

namespace ZTextV

theorem pt_blocks : ∀ (bs : List EscBlock), bs.all blockOK = true →
    ∀ (s : Chars) (e i f : Nat), e + 1 = s.length →
    s.drop i = blocksRaw bs →
    pt_go s e ((blocksRaw bs).length + f) i
      = pt_go s e f (i + (blocksRaw bs).length) := by
  intro bs
  induction bs with
  | nil =>
    intro _ s e i f _ _
    simp [blocksRaw]
  | cons b bs' ih =>
    intro hok s e i f he hd
    simp only [List.all_cons, Bool.and_eq_true] at hok
    cases b with
    | plain x =>
      have hp : plainChar x = true := by simpa [blockOK] using hok.1
      have hd' : s.drop i = x :: blocksRaw bs' := by
        simpa [blocksRaw, blockRaw] using hd
      have hx := charAt_of_drop s i x _ hd'
      have hlt := lt_length_of_drop s i x _ hd'
      have hxp := plain_facts x hp
      have hlen : (blocksRaw (EscBlock.plain x :: bs')).length
          = (blocksRaw bs').length + 1 := by
        simp [blocksRaw, blockRaw]
      rw [hlen,
        (by omega : (blocksRaw bs').length + 1 + f
          = ((blocksRaw bs').length + f) + 1),
        pt_step s e _ i (by omega)
          (by intro hcon; rw [hx] at hcon; exact hxp.1 hcon.1)
          (by intro hcon; rw [hx] at hcon; exact hxp.2.1 hcon.1),
        ih hok.2 s e (i+1) f he (drop_tail s i x _ hd')]
      congr 1
      omega
    | openPair =>
      have hd' : s.drop i = '\\' :: '{' :: '{' :: blocksRaw bs' := by
        simpa [blocksRaw, blockRaw] using hd
      have hd3 : s.drop (i+3) = blocksRaw bs' := by
        have h1 := drop_tail _ _ _ _ hd'
        have h2 := drop_tail _ _ _ _ h1
        exact drop_tail _ _ _ _ h2
      have hnext := blocks_head bs' hok.2 s (i+3) hd3
      have hlen : (blocksRaw (EscBlock.openPair :: bs')).length
          = (blocksRaw bs').length + 3 := by
        simp [blocksRaw, blockRaw]
      rw [hlen,
        (by omega : (blocksRaw bs').length + 3 + f
          = ((blocksRaw bs').length + f) + 3),
        pt_open3 s e i ((blocksRaw bs').length + f) (blocksRaw bs')
          he hd' hnext.1,
        ih hok.2 s e (i+3) f he hd3]
      congr 1
      omega
    | closePair =>
      have hd' : s.drop i = '\\' :: '}' :: '}' :: blocksRaw bs' := by
        simpa [blocksRaw, blockRaw] using hd
      have hd3 : s.drop (i+3) = blocksRaw bs' := by
        have h1 := drop_tail _ _ _ _ hd'
        have h2 := drop_tail _ _ _ _ h1
        exact drop_tail _ _ _ _ h2
      have hnext := blocks_head bs' hok.2 s (i+3) hd3
      have hlen : (blocksRaw (EscBlock.closePair :: bs')).length
          = (blocksRaw bs').length + 3 := by
        simp [blocksRaw, blockRaw]
      rw [hlen,
        (by omega : (blocksRaw bs').length + 3 + f
          = ((blocksRaw bs').length + f) + 3),
        pt_close3 s e i ((blocksRaw bs').length + f) (blocksRaw bs')
          he hd' hnext.2,
        ih hok.2 s e (i+3) f he hd3]
      congr 1
      omega

theorem pt_scan_blocks (bs : List EscBlock) (hok : bs.all blockOK = true)
    (hne : blocksRaw bs ≠ []) :
    pt_go (blocksRaw bs) ((blocksRaw bs).length - 1)
      ((blocksRaw bs).length + 1) 0 = .endAt (blocksRaw bs).length := by
  have hpos : 0 < (blocksRaw bs).length := List.length_pos.mpr hne
  have h := pt_blocks bs hok (blocksRaw bs) ((blocksRaw bs).length - 1) 0 1
    (by omega) (by rw [List.drop_zero])
  rw [h, pt_finish _ _ 1 _ (by omega)]
  congr 1
  omega

end ZTextV

namespace ZTextV

/- A whitespace-free text whose scan runs to the end without meeting an
unescaped marker pair, and which does not open with a token begin marker,
is stored verbatim by the top-level parser as a single Text element. -/
theorem parse_verbatim (s : Chars) (f : Nat)
    (hnotempty : s.isEmpty = false)
    (hnospace : ∀ x ∈ s, is_space_ x = false)
    (hhead : charAt s 0 ≠ Token_Begin)
    (hscan : pt_go s (s.length - 1) (s.length + 1) 0 = .endAt s.length) :
    parsePub s (f+3) = .ok [.text ⟨s⟩] := by
  have hpos : 0 < s.length := by
    cases s with
    | nil => exact absurd hnotempty (by simp)
    | cons y t => simp
  have hcollapse : collapse_runs s = s := collapse_runs_plain s hnospace
  have hsub : substr_ s 0 (s.length - 1) = s := by
    unfold substr_
    rw [if_pos (by omega : (0:Nat) ≤ (s.length - 1) + 1)]
    rw [List.drop_zero]
    rw [(by omega : (s.length - 1) + 1 - 0 = s.length)]
    exact List.take_length s
  have hclean : whitespace_clean_chars (substr_ s 0 (s.length - 1)) = s := by
    rw [hsub, wcc_eq_collapse, hcollapse]
  have htext : parse_text_ s 0 (s.length - 1) = (s.length, .ok (.text ⟨s⟩)) := by
    unfold parse_text_
    rw [(by omega : (s.length - 1) + 2 - 0 = s.length + 1), hscan]
    dsimp only
    rw [hclean]
    rw [if_neg (by simp [hnotempty])]
    rw [(by omega : s.length - 1 + 1 = s.length)]
  have hloop : parseLoop s 0 (s.length - 1) [] (f+1) = .ok [.text ⟨s⟩] := by
    rw [parseLoop]
    rw [if_neg (by omega : ¬ (0:Nat) > s.length - 1)]
    rw [if_neg (by
      simp only [Bool.and_eq_true, decide_eq_true_eq]
      intro hcon
      exact hhead hcon.1.2)]
    rw [htext]
    dsimp only
    rw [parseLoop_done s _ _ _ f (by omega : s.length > s.length - 1)]
    rw [List.nil_append]
  rw [parsePub]
  rw [if_neg (by simp [hnotempty])]
  rw [parseRange]
  rw [if_neg (by simp [hnotempty])]
  rw [hloop]

theorem parse_blocks (bs : List EscBlock) (hok : bs.all blockOK = true)
    (f : Nat) :
    parsePub (blocksRaw bs) (f+3) = .ok [.text ⟨blocksRaw bs⟩] := by
  rcases hz : blocksRaw bs with _ | ⟨y, t⟩
  · rfl
  · rw [← hz]
    refine parse_verbatim (blocksRaw bs) f ?_ ?_ ?_ ?_
    · rw [hz]
      rfl
    · exact blocksRaw_nospace bs hok
    · exact (blocks_head bs hok (blocksRaw bs) 0 (by rw [List.drop_zero])).1
    · exact pt_scan_blocks bs hok (by rw [hz]; simp)

end ZTextV

namespace ZTextV

/-- C9 (amended): for every text assembled, in any order and number, from
plain characters (no brace, backslash or whitespace characters) and the
two escape sequences — a backslash followed by a doubled token begin
marker, and a backslash followed by a doubled token end marker — the
parser stores the whole text verbatim in a single Text element: an
escaped marker pair is never treated as a structural token delimiter.
Evaluating that element returns the text with the backslash of every
escape pair removed (escapes are resolved at evaluation time, by
`escape_sequence_remove_`).  The unrestricted round-trip claim of the
spec is refuted separately by a counterexample: an escape sequence
immediately followed by a third open brace does feed a structural
token-begin marker to the parser, and the backslash survives
evaluation. -/
theorem claim_C9_amended (bs : List EscBlock) (hok : bs.all blockOK = true)
    (h : Host) (ctx : Ctx) (f g : Nat) :
    parsePub (blocksRaw bs) (f+3) = .ok [.text ⟨blocksRaw bs⟩]
    ∧ evalChain h (g+2) ctx [.text ⟨blocksRaw bs⟩]
      = .ok ctx ⟨blocksCooked bs⟩ := by
  refine ⟨parse_blocks bs hok f, ?_⟩
  have heval : evalChain h (g+2) ctx [.text ⟨blocksRaw bs⟩]
      = .ok ctx ⟨escape_sequence_remove_chars (blocksRaw bs) ++ []⟩ := rfl
  rw [heval, List.append_nil, esr_blocks_top bs hok]

/-- C9 witness: the concrete text with raw characters
x backslash-brace-brace y backslash-endbrace-endbrace z
backslash-endbrace-endbrace — one escaped open pair, one escaped close
pair and a lone trailing escaped close pair — parses to a single verbatim
Text element and evaluates to the text with the backslashes removed. -/
theorem claim_C9_amended_witness :
    parsePub (blocksRaw [.plain 'x', .openPair, .plain 'y', .closePair,
        .plain 'z', .closePair]) (0+3)
      = .ok [.text ⟨blocksRaw [.plain 'x', .openPair, .plain 'y', .closePair,
          .plain 'z', .closePair]⟩]
    ∧ evalChain host0 (0+2) emptyCtx
        [.text ⟨blocksRaw [.plain 'x', .openPair, .plain 'y', .closePair,
          .plain 'z', .closePair]⟩]
      = .ok emptyCtx ⟨blocksCooked [.plain 'x', .openPair, .plain 'y',
          .closePair, .plain 'z', .closePair]⟩ :=
  claim_C9_amended [.plain 'x', .openPair, .plain 'y', .closePair, .plain 'z',
    .closePair] (by decide) host0 emptyCtx 0 0

end ZTextV
